/-
Verification of the credit-card-fraud autoencoder notebook
(`CreditFraud_autoencoder.ipynb`).

The notebook is a linear pipeline over a table of transaction records:
resample the unbalanced table, train/test split, min-max scale, fit an SVM
baseline, build and fit a 5-dense-layer autoencoder on non-fraud rows,
extract latent representations from the encoder half, project with t-SNE,
fit an L1 logistic regression on the 2D projection, and report ROC-AUC and
recall.

This file embeds the notebook's data flow shallowly in Lean: feature values
are exact rationals, random draws made by the libraries (pandas `sample`,
`np.random.choice`, the shuffles inside `train_test_split`) are explicit
index-list parameters whose well-formedness (distinctness, bounds) is the
contract the library guarantees, and learned components (the trained layer
weights, the t-SNE embedding map) are explicit function parameters, since
the claims under verification are about data flow and shapes, not about the
optimizer's numerics.
-/
import Mathlib

namespace CreditFraud

/-- Activation functions named in the notebook's `Dense(...)` calls. -/
inductive Activation
  | tanh
  | relu
deriving DecidableEq, Repr

/-- One `Dense` layer as constructed in cell 14: a unit count, an
activation, and whether an L1 activity regularizer is attached. -/
structure DenseSpec where
  units : ℕ
  activation : Activation
  l1Regularized : Bool
deriving DecidableEq, Repr

/-- A Keras layer of the functional model: the `Input` layer or a `Dense`
layer.  `model.layers` of the built autoencoder starts with the input
layer, which matters for the `autoencoder.layers[:3]` slice in cell 20. -/
inductive Layer
  | input (width : ℕ)
  | dense (spec : DenseSpec)
deriving DecidableEq, Repr

/-- One row of `creditcard.csv`: the numeric feature columns (`V1..`,
`Amount`), the `Class` column (1 = fraud, 0 = non-fraud) and the `Time`
column.  `Class` and `Time` are dropped before modeling. -/
structure Record where
  features : List ℚ
  label : ℕ
  time : ℚ
deriving DecidableEq

instance : Inhabited Record := ⟨⟨[], 0, 0⟩⟩

/-- The feature matrix of a table: every row's feature vector, in order
(`df.drop(['Class', 'Time'], axis=1)`). -/
def featureMatrix (df : List Record) : List (List ℚ) :=
  df.map Record.features

/-- The label column of a table (`df['Class']`). -/
def labelColumn (df : List Record) : List ℕ :=
  df.map Record.label

/-- `df.loc[df['Class']==0]`, keeping each row's original position as its
identity (pandas keeps the original index through `.loc` and `.sample`). -/
def nonFraudRows (df : List Record) : List (ℕ × Record) :=
  df.enum.filter fun p => p.2.label == 0

/-- `df.loc[df['Class']==1]`, keeping original positions. -/
def fraudRows (df : List Record) : List (ℕ × Record) :=
  df.enum.filter fun p => p.2.label == 1

/-! ### Random draws and shuffles

The libraries draw indices from their RNG; the draw itself is a parameter
here.  What is intrinsic to the library call is its failure condition. -/

/-- `DataFrame.sample(n)` (`replace=False` default): the library draws
`sel`, a list of `n` distinct in-range positions, and raises `ValueError`
exactly when `n` exceeds the number of rows. -/
def pandasSample (rows : List (ℕ × Record)) (n : ℕ) (sel : List ℕ) :
    Option (List (ℕ × Record)) :=
  if n ≤ rows.length then some (sel.map fun i => rows.getD i default) else none

/-- `np.random.choice(N, k, replace=False)`: returns the drawn index list
`sel`, raising exactly when `k` exceeds `N`. -/
def npChoice (N k : ℕ) (sel : List ℕ) : Option (List ℕ) :=
  if k ≤ N then some sel else none

/-- `sample(frac=1)` and the internal shuffle of `train_test_split`:
reorder a list by a permutation of its positions. -/
def shuffleBy [Inhabited α] (perm : List ℕ) (xs : List α) : List α :=
  perm.map fun i => xs.getD i default

/-- A valid draw of a permutation of `n` positions. -/
def IsPermOf (perm : List ℕ) (n : ℕ) : Prop :=
  perm.Perm (List.range n)

/-- A valid without-replacement draw of `k` indices below `n`. -/
def IsDraw (sel : List ℕ) (k n : ℕ) : Prop :=
  sel.length = k ∧ sel.Nodup ∧ ∀ i ∈ sel, i < n

/-- `sklearn.model_selection.train_test_split` with `test_size=0.3`
computes `ceil(0.3 * n)` test rows; `0.3` is modelled as the exact
rational `3/10`. -/
def nTest (n : ℕ) : ℕ :=
  (3 * n + 9) / 10

/-- `train_test_split(xs, test_size=0.3)`: shuffle by the RNG's
permutation, then cut off the test block.  Returns `(train, test)`.
sklearn applies the same permutation to every array passed in, so callers
split `X` and `y` with the same `perm`. -/
def trainTestSplit [Inhabited α] (xs : List α) (perm : List ℕ) :
    List α × List α :=
  let shuffled := shuffleBy perm xs
  (shuffled.drop (nTest xs.length), shuffled.take (nTest xs.length))

/-! ### MinMaxScaler

`sklearn.preprocessing.MinMaxScaler` with the default feature range:
per-column minimum and maximum are computed on the fit matrix, and
`transform` maps `x ↦ (x - min) / (max - min)`; a zero column range is
replaced by 1 (`_handle_zeros_in_scale`). -/

/-- Column `j` of a matrix, as a list. -/
def colVals (M : List (List ℚ)) (j : ℕ) : List ℚ :=
  M.map fun r => r.getD j 0

/-- Per-column minimum of the fit matrix (`data_min_`). -/
def colMin (M : List (List ℚ)) (j : ℕ) : ℚ :=
  match colVals M j with
  | [] => 0
  | x :: xs => xs.foldl min x

/-- Per-column maximum of the fit matrix (`data_max_`). -/
def colMax (M : List (List ℚ)) (j : ℕ) : ℚ :=
  match colVals M j with
  | [] => 0
  | x :: xs => xs.foldl max x

/-- The scaler's per-column denominator, with sklearn's zero-range guard. -/
def mmDenom (M : List (List ℚ)) (j : ℕ) : ℚ :=
  if colMax M j = colMin M j then 1 else colMax M j - colMin M j

/-- `scaler.transform` of one row, the scaler having been fit on `M`. -/
def mmTransformRow (M : List (List ℚ)) (r : List ℚ) : List ℚ :=
  (List.range r.length).map fun j => (r.getD j 0 - colMin M j) / mmDenom M j

/-- `scaler.transform` of a matrix, the scaler having been fit on `M`. -/
def mmTransform (M rows : List (List ℚ)) : List (List ℚ) :=
  rows.map (mmTransformRow M)

/-- `MinMaxScaler().fit_transform(M)`. -/
def mmFitTransform (M : List (List ℚ)) : List (List ℚ) :=
  mmTransform M M

/-! ### Cell 6: resampling and train/test split -/

/-- `nfraud = df.loc[df['Class']==0].sample(1000)`. -/
def nfraudSample (df : List Record) (sel : List ℕ) :
    Option (List (ℕ × Record)) :=
  pandasSample (nonFraudRows df) 1000 sel

/-- `df_resamp = nfraud.append(fraud).sample(frac=1).reset_index(drop=True)`:
the non-fraud sample, then all fraud rows, shuffled.  Each row still
carries its original position in `df` (dropped by `reset_index` in the
code, kept here to reason about row identity). -/
def df_resamp (df : List Record) (sel perm : List ℕ) :
    Option (List (ℕ × Record)) :=
  (nfraudSample df sel).map fun nf => shuffleBy perm (nf ++ fraudRows df)

/-- `X = df_resamp.drop(['Class', 'Time'], axis=1)` of the (still indexed)
resampled rows. -/
def resampFeatures (rows : List (ℕ × Record)) : List (ℕ × List ℚ) :=
  rows.map fun p => (p.1, p.2.features)

/-- `y = df_resamp['Class']`. -/
def resampLabels (rows : List (ℕ × Record)) : List (ℕ × ℕ) :=
  rows.map fun p => (p.1, p.2.label)

/-- `X_train_usamp` (indexed): train part of the split of `X`. -/
def X_train_usamp (rows : List (ℕ × Record)) (perm : List ℕ) :
    List (ℕ × List ℚ) :=
  (trainTestSplit (resampFeatures rows) perm).1

/-- `X_test_usamp` (indexed): test part of the split of `X`. -/
def X_test_usamp (rows : List (ℕ × Record)) (perm : List ℕ) :
    List (ℕ × List ℚ) :=
  (trainTestSplit (resampFeatures rows) perm).2

/-! ### Cell 8: the SVM path's scaler -/

/-- `scaler = MinMaxScaler().fit(X_train_usamp)`;
`X_train_usamp_sc = scaler.transform(X_train_usamp)`. -/
def X_train_usamp_sc (rows : List (ℕ × Record)) (perm : List ℕ) :
    List (List ℚ) :=
  mmTransform ((X_train_usamp rows perm).map Prod.snd)
    ((X_train_usamp rows perm).map Prod.snd)

/-- `X_test_usamp_sc = scaler.transform(X_test_usamp)`: same statistics,
fit on the training split only. -/
def X_test_usamp_sc (rows : List (ℕ × Record)) (perm : List ℕ) :
    List (List ℚ) :=
  mmTransform ((X_train_usamp rows perm).map Prod.snd)
    ((X_test_usamp rows perm).map Prod.snd)

/-! ### Cells 14-15: building and compiling the autoencoder -/

/-- The five `Dense` layers of cell 14, for input width `d`:
`Dense(100, tanh, activity_regularizer=l1) → Dense(50, relu) →
Dense(50, relu) → Dense(100, relu) → Dense(d, relu)`. -/
def autoencoderDenses (d : ℕ) : List DenseSpec :=
  [⟨100, .tanh, true⟩, ⟨50, .relu, false⟩, ⟨50, .relu, false⟩,
   ⟨100, .relu, false⟩, ⟨d, .relu, false⟩]

/-- `autoencoder.layers` of the compiled `Model(inp_lyr, out_lyr)`: the
`Input` layer followed by the five dense layers. -/
def autoencoderModelLayers (d : ℕ) : List Layer :=
  .input d :: (autoencoderDenses d).map .dense

/-- The loss function passed to `autoencoder.compile`. -/
inductive Loss
  | mse
deriving DecidableEq, Repr

/-- The keyword arguments of `autoencoder.fit` in cell 18. -/
structure FitConfig where
  loss : Loss
  batchSize : ℕ
  epochs : ℕ
  shuffle : Bool
  validationSplit : ℚ
deriving DecidableEq, Repr

/-- `compile(optimizer="adadelta", loss="mse")` and
`fit(batch_size=256, epochs=15, shuffle=True, validation_split=0.2)`. -/
def autoencoderFitConfig : FitConfig :=
  ⟨.mse, 256, 15, true, 1/5⟩

/-! ### Cell 17: the autoencoder path's scaling and fit sample -/

/-- `X_scale = MinMaxScaler().fit_transform(df.drop(['Class','Time'],
axis=1).values)`: fit and applied on the FULL table, every row of both
classes. -/
def X_scale (df : List Record) : List (List ℚ) :=
  mmFitTransform (featureMatrix df)

/-- `x_sc_norm = X_scale[df['Class'].values==0]`: boolean-mask selection of
the scaled rows at the positions whose label is 0. -/
def x_sc_norm (df : List Record) : List (List ℚ) :=
  (((X_scale df).zip (labelColumn df)).filter fun p => p.2 == 0).map Prod.fst

/-- `x_sc_fraud = X_scale[df['Class'].values==1]`. -/
def x_sc_fraud (df : List Record) : List (List ℚ) :=
  (((X_scale df).zip (labelColumn df)).filter fun p => p.2 == 1).map Prod.fst

/-- `n_fit_samp = 2000`. -/
def n_fit_samp : ℕ := 2000

/-- `fit_samp = x_sc_norm[np.random.choice(x_sc_norm.shape[0], n_fit_samp,
replace=False), :]`. -/
def fit_samp (df : List Record) (ch : List ℕ) : Option (List (List ℚ)) :=
  (npChoice (x_sc_norm df).length n_fit_samp ch).map fun c =>
    c.map fun i => (x_sc_norm df).getD i []

/-! ### Cell 20: the encoder half and the latent representations

The trained weights are opaque outputs of the optimizer; they enter as
function parameters `w` (kernels), `b` (biases) and `tq` (the library's
real `tanh`, whose values the claims never need).  What the layer
STRUCTURE fixes regardless of the weights — output widths, which rows are
fed — is what gets proved. -/

/-- Apply an activation. `relu(x) = max(0, x)`; `tanh` is the library's
transcendental map, a parameter here. -/
def actApply (tq : ℚ → ℚ) : Activation → ℚ → ℚ
  | .tanh => tq
  | .relu => fun x => max 0 x

/-- Forward pass of one `Dense` layer: unit `u` outputs
`act(b u + Σ_i w u i * x_i)`.  The output width is the unit count,
whatever the weights. -/
def denseApply (tq : ℚ → ℚ) (s : DenseSpec) (w : ℕ → ℕ → ℚ) (b : ℕ → ℚ)
    (x : List ℚ) : List ℚ :=
  (List.range s.units).map fun u =>
    actApply tq s.activation
      (b u + ((List.range x.length).map fun i => w u i * x.getD i 0).sum)

/-- Forward pass of a stack of layers; the `Input` layer is the identity.
`w l` and `b l` are the weights of the `l`-th layer of the stack. -/
def layersApply (tq : ℚ → ℚ) : List Layer → (ℕ → ℕ → ℕ → ℚ) →
    (ℕ → ℕ → ℚ) → List ℚ → List ℚ
  | [], _, _, x => x
  | .input _ :: rest, w, b, x =>
      layersApply tq rest (fun l => w (l + 1)) (fun l => b (l + 1)) x
  | .dense s :: rest, w, b, x =>
      layersApply tq rest (fun l => w (l + 1)) (fun l => b (l + 1))
        (denseApply tq s (w 0) (b 0) x)

/-- `hidden_rep = Sequential(autoencoder.layers[:3])`: the input layer and
the first two dense layers. -/
def hidden_rep (d : ℕ) : List Layer :=
  (autoencoderModelLayers d).take 3

/-- `hidden_rep.predict` of one scaled row. -/
def hiddenRepPredict (d : ℕ) (tq : ℚ → ℚ) (w : ℕ → ℕ → ℕ → ℚ)
    (b : ℕ → ℕ → ℚ) (x : List ℚ) : List ℚ :=
  layersApply tq (hidden_rep d) w b x

/-- `norm_hid_rep = hidden_rep.predict(x_sc_norm[np.random.choice(
x_sc_norm.shape[0], n_fit_samp*2, replace=False), :])`: a fresh draw `ch2`
of `2 * n_fit_samp` non-fraud rows, encoded. -/
def norm_hid_rep (df : List Record) (ch2 : List ℕ) (d : ℕ) (tq : ℚ → ℚ)
    (w : ℕ → ℕ → ℕ → ℚ) (b : ℕ → ℕ → ℚ) : Option (List (List ℚ)) :=
  (npChoice (x_sc_norm df).length (n_fit_samp * 2) ch2).map fun c =>
    c.map fun i => hiddenRepPredict d tq w b ((x_sc_norm df).getD i [])

/-- `fraud_hid_rep = hidden_rep.predict(x_sc_fraud)`: every fraud row,
encoded. -/
def fraud_hid_rep (df : List Record) (d : ℕ) (tq : ℚ → ℚ)
    (w : ℕ → ℕ → ℕ → ℚ) (b : ℕ → ℕ → ℚ) : List (List ℚ) :=
  (x_sc_fraud df).map (hiddenRepPredict d tq w b)

/-- `X_latent = np.append(norm_hid_rep, fraud_hid_rep, axis=0)`. -/
def X_latent (df : List Record) (ch2 : List ℕ) (d : ℕ) (tq : ℚ → ℚ)
    (w : ℕ → ℕ → ℕ → ℚ) (b : ℕ → ℕ → ℚ) : Option (List (List ℚ)) :=
  (norm_hid_rep df ch2 d tq w b).map fun nh => nh ++ fraud_hid_rep df d tq w b

/-- `y_latent = np.append(np.zeros(norm_hid_rep.shape[0]),
np.ones(fraud_hid_rep.shape[0]))`. -/
def y_latent (df : List Record) (ch2 : List ℕ) (d : ℕ) (tq : ℚ → ℚ)
    (w : ℕ → ℕ → ℕ → ℚ) (b : ℕ → ℕ → ℚ) : Option (List ℕ) :=
  (norm_hid_rep df ch2 d tq w b).map fun nh =>
    List.replicate nh.length 0 ++
      List.replicate (fraud_hid_rep df d tq w b).length 1

/-! ### Cells 22-24: t-SNE projection and the latent-space classifier -/

/-- `TSNE(n_components=2, ...)`: the number of embedding components. -/
def tsneComponents : ℕ := 2

/-- `X_t = tsne.fit_transform(X_latent)`: the library's embedding is an
opaque map `t` from the latent matrix to one 2D point per row (the library
guarantees one output row per input row; theorems that need it take that
as a hypothesis). -/
def X_t (t : List (List ℚ) → List (ℚ × ℚ)) (df : List Record)
    (ch2 : List ℕ) (d : ℕ) (tq : ℚ → ℚ) (w : ℕ → ℕ → ℕ → ℚ)
    (b : ℕ → ℕ → ℚ) : Option (List (ℚ × ℚ)) :=
  (X_latent df ch2 d tq w b).map t

/-- The penalty argument of `sklearn.linear_model.LogisticRegression`. -/
inductive Penalty
  | l1
  | l2
deriving DecidableEq, Repr

/-- `LogisticRegression(penalty='l1')` in cell 24. -/
def latentLogRegPenalty : Penalty := .l1

/-- Cell 24's `X_train`: the train part of
`train_test_split(X_t, y_latent, test_size=0.3, random_state=0)` — a split
of the 2D embedding, not of the 50-wide latent matrix. -/
def latentXTrain (t : List (List ℚ) → List (ℚ × ℚ)) (df : List Record)
    (ch2 perm : List ℕ) (d : ℕ) (tq : ℚ → ℚ) (w : ℕ → ℕ → ℕ → ℚ)
    (b : ℕ → ℕ → ℚ) : Option (List (ℚ × ℚ)) :=
  (X_t t df ch2 d tq w b).map fun xs => (trainTestSplit xs perm).1

/-- Cell 24's `y_train`: labels split with the same permutation. -/
def latentYTrain (df : List Record) (ch2 perm : List ℕ) (d : ℕ)
    (tq : ℚ → ℚ) (w : ℕ → ℕ → ℕ → ℚ) (b : ℕ → ℕ → ℚ) :
    Option (List ℕ) :=
  (y_latent df ch2 d tq w b).map fun ys => (trainTestSplit ys perm).1

/-! ### Cells 9 and 25: metrics and their printed form -/

/-- `sklearn.metrics.recall_score` with the default binary average and
`pos_label=1`: true positives over (true positives + false negatives),
i.e. a statistic of the rows whose true label is 1; sklearn returns 0 when
there are no positive rows.  Input: `(y_true, y_pred)` pairs. -/
def recall_score (pairs : List (ℕ × ℕ)) : ℚ :=
  let tp := (pairs.filter fun p => p.1 == 1 && p.2 == 1).length
  let fn := (pairs.filter fun p => p.1 == 1 && !(p.2 == 1)).length
  if tp + fn = 0 then 0 else (tp : ℚ) / ((tp : ℚ) + (fn : ℚ))

/-- `sklearn.metrics.roc_auc_score` on binary labels equals the normalized
Mann-Whitney statistic: over all (positive, negative) row pairs, count 1
when the positive scores higher, 1/2 on a tie, divided by the number of
pairs.  sklearn raises when only one class is present.  Input:
`(y_true, score)` pairs. -/
def roc_auc_score (pairs : List (ℕ × ℚ)) : Option ℚ :=
  let pos := (pairs.filter fun p => p.1 == 1).map Prod.snd
  let neg := (pairs.filter fun p => !(p.1 == 1)).map Prod.snd
  if pos.length = 0 ∨ neg.length = 0 then none
  else some
    (((pos.map fun s =>
        ((neg.filter fun u => decide (u < s)).length : ℚ) +
          ((neg.filter fun u => u == s).length : ℚ) / 2).sum) /
      ((pos.length : ℚ) * (neg.length : ℚ)))

/-- `'{:.04f}'.format(v)`: the value rounded to four decimal places, the
integer part, a dot, then exactly four digit characters.  (Metric values
are in `[0,1]`, so the nonnegative case is modelled.) -/
def fmt4 (q : ℚ) : String :=
  let m := (round (q * 10000)).toNat
  toString (m / 10000) ++ "." ++
    String.mk [Nat.digitChar (m / 1000 % 10), Nat.digitChar (m / 100 % 10),
      Nat.digitChar (m / 10 % 10), Nat.digitChar (m % 10)]

/-- `print('<label>: {:.04f}'.format(v))`: one printed metric line. -/
def metricLine (label : String) (v : ℚ) : String :=
  label ++ ": " ++ fmt4 v

/-- Which statistic a printed line reports. -/
inductive MetricKind
  | rocAuc
  | recall
deriving DecidableEq, Repr

/-- Which split a printed line reports on. -/
inductive SplitKind
  | train
  | test
deriving DecidableEq, Repr

/-- One metric report: the statistic, the split, and the printed label. -/
structure MetricReport where
  kind : MetricKind
  split : SplitKind
  label : String
deriving DecidableEq, Repr

/-- The four metric lines of cell 9 (the SVM baseline), in print order. -/
def baselineMetrics : List MetricReport :=
  [⟨.rocAuc, .train, "Training ROC_AUC"⟩, ⟨.rocAuc, .test, "Test ROC_AUC"⟩,
   ⟨.recall, .train, "Training Recall"⟩, ⟨.recall, .test, "Test Recall"⟩]

/-- The four metric lines of cell 25 (the latent-space classifier), in
print order. -/
def latentMetrics : List MetricReport :=
  [⟨.rocAuc, .train, "Training ROC_AUC"⟩, ⟨.rocAuc, .test, "Test ROC_AUC"⟩,
   ⟨.recall, .train, "Training Recall"⟩, ⟨.recall, .test, "Test Recall"⟩]

/-! ### Cell 27: the confusion-plot encoding -/

/-- `def gen_pred_res(y_true, y_pred): return y_true*10 + y_pred`. -/
def gen_pred_res (y_true y_pred : ℕ) : ℕ :=
  y_true * 10 + y_pred

/-- The keys of the `cases` dict of cell 27: TN, FP, FN, TP. -/
def confusionCases : List ℕ :=
  [0, 1, 10, 11]

/-- The arguments of one Keras `fit` call: the inputs `x`, the targets `y`
and the keyword configuration. -/
structure FitCall where
  x : List (List ℚ)
  y : List (List ℚ)
  cfg : FitConfig
deriving DecidableEq

/-- Cell 18, `autoencoder.fit(x=fit_samp, y=fit_samp, batch_size=256,
epochs=15, shuffle=True, validation_split=0.2)`: the model is fit with the
scaled non-fraud sample as both input and target. -/
def autoencoderFitCall (df : List Record) (ch : List ℕ) : Option FitCall :=
  (fit_samp df ch).map fun s => ⟨s, s, autoencoderFitConfig⟩

/-- The dense layers of a layer stack, in order (the input layer carries
no weights). -/
def denseSpecsOf (ls : List Layer) : List DenseSpec :=
  ls.filterMap fun l =>
    match l with
    | .input _ => none
    | .dense s => some s

/-! ### Concrete tables used to instantiate theorems with hypotheses -/

/-- A single-feature non-fraud record with feature value `q`. -/
def nfRec (q : ℚ) : Record := ⟨[q], 0, 0⟩

/-- A single-feature fraud record with feature value `q`. -/
def frRec (q : ℚ) : Record := ⟨[q], 1, 0⟩

/-- A table of 4000 identical non-fraud rows and one fraud row: enough
rows for every draw the notebook makes. -/
def dfBig : List Record := List.replicate 4000 (nfRec 0) ++ [frRec 1]

/-- A 404-feature table (the feature width the notebook's narration gives
for the dataset): 4000 non-fraud rows and one fraud row. -/
def dfWide : List Record :=
  List.replicate 4000 ⟨List.replicate 404 0, 0, 0⟩ ++
    [⟨List.replicate 404 1, 1, 0⟩]

/-- Two non-fraud rows (features 0 and 1) and one fraud row of feature 2. -/
def dfFraud2 : List Record := [nfRec 0, nfRec 1, frRec 2]

/-- The same two non-fraud rows, the fraud row's feature changed to 4. -/
def dfFraud4 : List Record := [nfRec 0, nfRec 1, frRec 4]

/-! ### Foldl min/max facts used for the scaler bounds -/

theorem foldl_min_le_init (xs : List ℚ) (a : ℚ) : xs.foldl min a ≤ a := by
  induction xs generalizing a with
  | nil => exact le_refl a
  | cons x xs ih => exact le_trans (ih (min a x)) (min_le_left a x)

theorem foldl_min_le_mem (xs : List ℚ) (a x : ℚ) (hx : x ∈ xs) :
    xs.foldl min a ≤ x := by
  induction xs generalizing a with
  | nil => cases hx
  | cons y ys ih =>
    rcases List.mem_cons.mp hx with h | h
    · subst h
      exact le_trans (foldl_min_le_init ys (min a x)) (min_le_right a x)
    · exact ih (min a y) h

theorem init_le_foldl_max (xs : List ℚ) (a : ℚ) : a ≤ xs.foldl max a := by
  induction xs generalizing a with
  | nil => exact le_refl a
  | cons x xs ih => exact le_trans (le_max_left a x) (ih (max a x))

theorem mem_le_foldl_max (xs : List ℚ) (a x : ℚ) (hx : x ∈ xs) :
    x ≤ xs.foldl max a := by
  induction xs generalizing a with
  | nil => cases hx
  | cons y ys ih =>
    rcases List.mem_cons.mp hx with h | h
    · subst h
      exact le_trans (le_max_right a x) (init_le_foldl_max ys (max a x))
    · exact ih (max a y) h

theorem colMin_le_of_mem {M : List (List ℚ)} {j : ℕ} {v : ℚ}
    (hv : v ∈ colVals M j) : colMin M j ≤ v := by
  unfold colMin
  rcases h : colVals M j with _ | ⟨x, xs⟩
  · rw [h] at hv; cases hv
  · rw [h] at hv
    rcases List.mem_cons.mp hv with h' | h'
    · subst h'; exact foldl_min_le_init xs v
    · exact foldl_min_le_mem xs x v h'

theorem le_colMax_of_mem {M : List (List ℚ)} {j : ℕ} {v : ℚ}
    (hv : v ∈ colVals M j) : v ≤ colMax M j := by
  unfold colMax
  rcases h : colVals M j with _ | ⟨x, xs⟩
  · rw [h] at hv; cases hv
  · rw [h] at hv
    rcases List.mem_cons.mp hv with h' | h'
    · subst h'; exact init_le_foldl_max xs v
    · exact mem_le_foldl_max xs x v h'

theorem colMin_le_colMax {M : List (List ℚ)} (hM : M ≠ []) (j : ℕ) :
    colMin M j ≤ colMax M j := by
  rcases M with _ | ⟨r, rs⟩
  · exact absurd rfl hM
  · have hv : r.getD j 0 ∈ colVals (r :: rs) j := by
      exact List.mem_map_of_mem _ (List.mem_cons_self r rs)
    exact le_trans (colMin_le_of_mem hv) (le_colMax_of_mem hv)

/-- Core scaler bound: each entry of a transformed row lies in `[0,1]`
whenever the row was part of the fit matrix. -/
theorem mmTransformRow_mem_unitInterval {M : List (List ℚ)} {r : List ℚ}
    (hr : r ∈ M) {v : ℚ} (hv : v ∈ mmTransformRow M r) : 0 ≤ v ∧ v ≤ 1 := by
  unfold mmTransformRow at hv
  rcases List.mem_map.mp hv with ⟨j, _, rfl⟩
  have hcol : r.getD j 0 ∈ colVals M j := List.mem_map_of_mem _ hr
  have h1 : colMin M j ≤ r.getD j 0 := colMin_le_of_mem hcol
  have h2 : r.getD j 0 ≤ colMax M j := le_colMax_of_mem hcol
  unfold mmDenom
  by_cases heq : colMax M j = colMin M j
  · rw [if_pos heq]
    have hx : r.getD j 0 = colMin M j := le_antisymm (heq ▸ h2) h1
    rw [div_one, hx]
    constructor <;> simp
  · simp only [if_neg heq]
    have hlt : colMin M j < colMax M j :=
      lt_of_le_of_ne (le_trans h1 h2) (fun h => heq h.symm)
    have hpos : 0 < colMax M j - colMin M j := by linarith
    constructor
    · exact div_nonneg (by linarith) (le_of_lt hpos)
    · rw [div_le_one hpos]; linarith

/-! ### List facts about the embedding's sampling and masking primitives -/

theorem getD_mem {α : Type} [Inhabited α] {l : List α} {i : ℕ}
    (h : i < l.length) : l.getD i default ∈ l := by
  rw [List.getD_eq_getElem l default h]
  exact List.getElem_mem h

theorem map_getD_range {α : Type} [Inhabited α] (xs : List α) :
    (List.range xs.length).map (fun i => xs.getD i default) = xs := by
  apply List.ext_get
  · simp
  · intro i h1 h2
    simp [List.getD_eq_getElem?_getD, List.getElem?_eq_getElem h2]

/-- A shuffle by a valid permutation draw is a permutation of the list. -/
theorem shuffleBy_perm {α : Type} [Inhabited α] {perm : List ℕ}
    {xs : List α} (h : IsPermOf perm xs.length) :
    (shuffleBy perm xs).Perm xs := by
  have hmap := map_getD_range xs
  exact (h.map fun i => xs.getD i default).trans (by rw [hmap])

theorem length_shuffleBy {α : Type} [Inhabited α] (perm : List ℕ)
    (xs : List α) : (shuffleBy perm xs).length = perm.length := by
  simp [shuffleBy]

/-- Boolean-mask selection along a second, positionally aligned list is
filtering the underlying list. -/
theorem zip_filter_map_eq {α β : Type} (f : α → β) (g : α → ℕ) (c : ℕ)
    (l : List α) :
    (((l.map f).zip (l.map g)).filter fun p => p.2 == c).map Prod.fst =
      (l.filter fun a => g a == c).map f := by
  induction l with
  | nil => rfl
  | cons a l ih =>
    by_cases h : g a == c <;> simp [List.filter_cons, h, ih]

theorem mmTransform_featureMatrix (M : List (List ℚ)) (df : List Record) :
    mmTransform M (featureMatrix df) =
      df.map fun r => mmTransformRow M r.features := by
  rw [mmTransform, featureMatrix, List.map_map]
  rfl

/-- `x_sc_norm` is the scaled feature vector of each non-fraud row, the
scaler fit on the FULL table. -/
theorem x_sc_norm_eq (df : List Record) :
    x_sc_norm df = (df.filter fun r => r.label == 0).map
      fun r => mmTransformRow (featureMatrix df) r.features := by
  rw [x_sc_norm, X_scale, mmFitTransform, labelColumn,
    mmTransform_featureMatrix]
  have h := zip_filter_map_eq
    (fun r : Record => mmTransformRow (featureMatrix df) r.features)
    Record.label 0 df
  exact h

/-- `x_sc_fraud` is the scaled feature vector of each fraud row. -/
theorem x_sc_fraud_eq (df : List Record) :
    x_sc_fraud df = (df.filter fun r => r.label == 1).map
      fun r => mmTransformRow (featureMatrix df) r.features := by
  rw [x_sc_fraud, X_scale, mmFitTransform, labelColumn,
    mmTransform_featureMatrix]
  exact zip_filter_map_eq
    (fun r : Record => mmTransformRow (featureMatrix df) r.features)
    Record.label 1 df

theorem x_sc_norm_length (df : List Record) :
    (x_sc_norm df).length = (df.filter fun r => r.label == 0).length := by
  rw [x_sc_norm_eq]
  simp

theorem mem_x_sc_norm {df : List Record} {v : List ℚ}
    (hv : v ∈ x_sc_norm df) :
    ∃ r, r ∈ df ∧ r.label = 0 ∧
      v = mmTransformRow (featureMatrix df) r.features := by
  rw [x_sc_norm_eq] at hv
  rcases List.mem_map.mp hv with ⟨r, hr, rfl⟩
  rcases List.mem_filter.mp hr with ⟨hrdf, hlab⟩
  exact ⟨r, hrdf, by simpa using hlab, rfl⟩

theorem mem_x_sc_fraud {df : List Record} {v : List ℚ}
    (hv : v ∈ x_sc_fraud df) :
    ∃ r, r ∈ df ∧ r.label = 1 ∧
      v = mmTransformRow (featureMatrix df) r.features := by
  rw [x_sc_fraud_eq] at hv
  rcases List.mem_map.mp hv with ⟨r, hr, rfl⟩
  rcases List.mem_filter.mp hr with ⟨hrdf, hlab⟩
  exact ⟨r, hrdf, by simpa using hlab, rfl⟩

/-- Original positions of a filtered indexed table are distinct. -/
theorem nodup_map_fst_filter_enum (df : List Record)
    (p : ℕ × Record → Bool) : ((df.enum.filter p).map Prod.fst).Nodup := by
  have h1 : (df.enum.filter p).Sublist df.enum := List.filter_sublist _
  have h2 : ((df.enum.filter p).map Prod.fst).Sublist
      (df.enum.map Prod.fst) := h1.map _
  have h3 : (df.enum.map Prod.fst).Nodup := by
    rw [List.enum_map_fst]
    exact List.nodup_range _
  exact h3.sublist h2

/-- A without-replacement draw out of rows with distinct original
positions yields rows with distinct original positions. -/
theorem nodup_map_fst_sample {rows : List (ℕ × Record)}
    (hrow : (rows.map Prod.fst).Nodup) {sel : List ℕ} (hsel : sel.Nodup)
    (hb : ∀ i ∈ sel, i < rows.length) :
    ((sel.map fun i => rows.getD i default).map Prod.fst).Nodup := by
  rw [List.map_map]
  apply List.Nodup.map_on _ hsel
  intro i hi j hj hij
  have hi' := hb i hi
  have hj' := hb j hj
  have hinj : Function.Injective (rows.map Prod.fst).get :=
    List.nodup_iff_injective_get.mp hrow
  have hlen : (rows.map Prod.fst).length = rows.length := by simp
  have hij' : (rows.getD i default).fst = (rows.getD j default).fst := hij
  have e1 : (rows.map Prod.fst).get ⟨i, by omega⟩ =
      (rows.getD i default).fst := by
    simp [List.get_eq_getElem, List.getD_eq_getElem?_getD,
      List.getElem?_eq_getElem hi']
  have e2 : (rows.map Prod.fst).get ⟨j, by omega⟩ =
      (rows.getD j default).fst := by
    simp [List.get_eq_getElem, List.getD_eq_getElem?_getD,
      List.getElem?_eq_getElem hj']
  have hfin : (⟨i, by omega⟩ : Fin (rows.map Prod.fst).length) =
      ⟨j, by omega⟩ := hinj (by rw [e1, e2, hij'])
  exact congrArg Fin.val hfin

/-- Two indexed rows of the same table with the same original position are
the same row. -/
theorem enum_fst_inj {df : List Record} {p q : ℕ × Record}
    (hp : p ∈ df.enum) (hq : q ∈ df.enum) (h : p.1 = q.1) : p = q := by
  have hp' := List.mem_enum_iff_getElem?.mp hp
  have hq' := List.mem_enum_iff_getElem?.mp hq
  rw [h] at hp'
  have : p.2 = q.2 := by
    rw [hp'] at hq'
    exact (Option.some.injEq _ _).mp hq'
  exact Prod.ext h this

theorem length_filter_enum_label (df : List Record) (c : ℕ) :
    (df.enum.filter fun p => p.2.label == c).length =
      (df.filter fun r => r.label == c).length := by
  rw [List.enum]
  generalize 0 = n
  induction df generalizing n with
  | nil => rfl
  | cons r df ih =>
    simp only [List.enumFrom, List.filter_cons]
    by_cases h : r.label == c <;> simp [h, ih]

theorem nonFraudRows_length (df : List Record) :
    (nonFraudRows df).length = (df.filter fun r => r.label == 0).length := by
  rw [nonFraudRows]
  exact length_filter_enum_label df 0

theorem fraudRows_length (df : List Record) :
    (fraudRows df).length = (df.filter fun r => r.label == 1).length := by
  rw [fraudRows]
  exact length_filter_enum_label df 1

theorem dfBig_filter0_len :
    (dfBig.filter fun r => r.label == 0).length = 4000 := by
  rw [dfBig, List.filter_append, List.filter_replicate]
  norm_num [nfRec, frRec, List.filter_cons]

theorem dfBig_norm_len : (x_sc_norm dfBig).length = 4000 := by
  rw [x_sc_norm_length]
  exact dfBig_filter0_len

theorem dfBig_nonFraudRows_len : (nonFraudRows dfBig).length = 4000 := by
  rw [nonFraudRows_length]
  exact dfBig_filter0_len

theorem dfBig_fraudRows_len : (fraudRows dfBig).length = 1 := by
  rw [fraudRows_length, dfBig, List.filter_append, List.filter_replicate]
  norm_num [nfRec, frRec, List.filter_cons]

/-! ### The claims -/

/-- C1: the autoencoder is built with exactly the layer sequence
`dense(100, tanh, L1) → dense(50, relu) → dense(50, relu) →
dense(100, relu) → dense(input width, relu)` — so for every input feature
width the output layer width equals the input width — compiled with
mean-squared-error loss, and fit with its own input as target
(`y = x = fit_samp`), for 15 epochs with validation fraction 0.2, on rows
that are all scaled non-fraud records. -/
theorem c1_autoencoder_architecture_and_fit :
    (∀ d, (autoencoderDenses d).map DenseSpec.units = [100, 50, 50, 100, d]) ∧
    (∀ d, (autoencoderDenses d).map DenseSpec.activation =
      [.tanh, .relu, .relu, .relu, .relu]) ∧
    (∀ d, (autoencoderDenses d).map DenseSpec.l1Regularized =
      [true, false, false, false, false]) ∧
    (∀ d, ((autoencoderDenses d).getLast?).map DenseSpec.units = some d) ∧
    autoencoderFitConfig.loss = .mse ∧
    autoencoderFitConfig.epochs = 15 ∧
    autoencoderFitConfig.validationSplit = 0.2 ∧
    (∀ df ch fc, IsDraw ch n_fit_samp (x_sc_norm df).length →
      autoencoderFitCall df ch = some fc →
      fc.y = fc.x ∧ fc.cfg = autoencoderFitConfig ∧
      ∀ v ∈ fc.x, ∃ r, r ∈ df ∧ r.label = 0 ∧
        v = mmTransformRow (featureMatrix df) r.features) := by
  refine ⟨fun d => rfl, fun d => rfl, fun d => rfl, fun d => rfl, rfl, rfl,
    by norm_num [autoencoderFitConfig], ?_⟩
  intro df ch fc hdraw hfc
  rw [autoencoderFitCall] at hfc
  rcases Option.map_eq_some'.mp hfc with ⟨s, hs, rfl⟩
  refine ⟨rfl, rfl, ?_⟩
  intro v hv
  rw [fit_samp, npChoice] at hs
  by_cases hc : n_fit_samp ≤ (x_sc_norm df).length
  · rw [if_pos hc] at hs
    simp only [Option.map_some', Option.some.injEq] at hs
    rw [← hs] at hv
    rcases List.mem_map.mp hv with ⟨i, hi, rfl⟩
    have hib : i < (x_sc_norm df).length := hdraw.2.2 i hi
    have hvmem : (x_sc_norm df).getD i [] ∈ x_sc_norm df := getD_mem hib
    exact mem_x_sc_norm hvmem
  · rw [if_neg hc] at hs
    simp at hs

/-- Instance of C1's fit clause: on a concrete 4001-row table and the draw
`range 2000`, the fit call exists and its target equals its input. -/
theorem c1_witness :
    IsDraw (List.range 2000) n_fit_samp (x_sc_norm dfBig).length ∧
    ∃ fc, autoencoderFitCall dfBig (List.range 2000) = some fc ∧
      fc.y = fc.x := by
  have hlen : (x_sc_norm dfBig).length = 4000 := dfBig_norm_len
  have hdraw : IsDraw (List.range 2000) n_fit_samp (x_sc_norm dfBig).length := by
    refine ⟨by simp [n_fit_samp], List.nodup_range _, ?_⟩
    intro i hi
    rw [hlen]
    have := List.mem_range.mp hi
    omega
  have hsome : autoencoderFitCall dfBig (List.range 2000) =
      some ⟨(List.range 2000).map fun i => (x_sc_norm dfBig).getD i [],
        (List.range 2000).map fun i => (x_sc_norm dfBig).getD i [],
        autoencoderFitConfig⟩ := by
    rw [autoencoderFitCall, fit_samp, npChoice,
      if_pos (by rw [hlen]; norm_num [n_fit_samp])]
    rfl
  exact ⟨hdraw, _, hsome,
    ((c1_autoencoder_architecture_and_fit.2.2.2.2.2.2.2 dfBig
      (List.range 2000) _ hdraw hsome).1)⟩

/-- Every entry of `fit_transform` lies in `[0,1]`: the rows transformed
are exactly the rows the statistics were fit on. -/
theorem mmFitTransform_unitInterval (M : List (List ℚ)) :
    ∀ r ∈ mmFitTransform M, ∀ v ∈ r, 0 ≤ v ∧ v ≤ 1 := by
  intro r hr v hv
  rw [mmFitTransform, mmTransform] at hr
  rcases List.mem_map.mp hr with ⟨r0, hr0, rfl⟩
  exact mmTransformRow_mem_unitInterval hr0 hv

/-- C2, counterexample: the claim says every scaled matrix used for
modeling has its statistics fit only on the training split.  `X_scale`
(cell 17) is fit on the FULL table: two tables with identical non-fraud
(training-side) rows, differing only in one fraud row's feature value,
yield different scaled non-fraud matrices — the value `1/2` becomes `1/4`
when the fraud row moves the column maximum from 2 to 4.  Statistics fit
only on a training split could not depend on that fraud row. -/
theorem c2_counterexample :
    (dfFraud2.filter fun r => r.label == 0) =
      (dfFraud4.filter fun r => r.label == 0) ∧
    x_sc_norm dfFraud2 ≠ x_sc_norm dfFraud4 := by
  have h2 : x_sc_norm dfFraud2 = [[0], [1/2]] := by
    norm_num [x_sc_norm_eq, dfFraud2, nfRec, frRec, List.filter_cons,
      mmTransformRow, colMin, colMax, colVals, mmDenom, featureMatrix,
      List.range_succ]
  have h4 : x_sc_norm dfFraud4 = [[0], [1/4]] := by
    norm_num [x_sc_norm_eq, dfFraud4, nfRec, frRec, List.filter_cons,
      mmTransformRow, colMin, colMax, colVals, mmDenom, featureMatrix,
      List.range_succ]
  refine ⟨by decide, ?_⟩
  rw [h2, h4]
  intro hcontra
  simp only [List.cons.injEq] at hcontra
  norm_num at hcontra

/-- C2, amended: the baseline path's scaler is fit on the training split
only and its training entries lie in `[0,1]` (a test entry can fall
outside, e.g. value 2 under a scaler fit on `[0,1]` stays 2); the
autoencoder path's `X_scale` is instead fit on the FULL table, and
consequently every row of `X_scale` — of both classes — lies in `[0,1]`. -/
theorem c2_amended_scaling :
    (∀ rows perm, ∀ r ∈ X_train_usamp_sc rows perm, ∀ v ∈ r,
      0 ≤ v ∧ v ≤ 1) ∧
    (∀ rows perm, X_test_usamp_sc rows perm =
      mmTransform ((X_train_usamp rows perm).map Prod.snd)
        ((X_test_usamp rows perm).map Prod.snd)) ∧
    (∀ df, X_scale df = mmFitTransform (featureMatrix df)) ∧
    (∀ df, ∀ r ∈ X_scale df, ∀ v ∈ r, 0 ≤ v ∧ v ≤ 1) ∧
    mmTransform [[(0 : ℚ)], [1]] [[2]] = [[2]] := by
  refine ⟨?_, fun rows perm => rfl, fun df => rfl, ?_, by
    norm_num [mmTransform, mmTransformRow, colMin, colMax, colVals, mmDenom,
      List.range_succ]⟩
  · intro rows perm r hr v hv
    exact mmFitTransform_unitInterval _ r hr v hv
  · intro df r hr v hv
    exact mmFitTransform_unitInterval _ r hr v hv

/-- Instance of C2's amended bounds at concrete tables: a scaled training
entry of the baseline path and a scaled entry of `X_scale` both land in
`[0,1]`. -/
theorem c2_witness :
    (0 ≤ (0 : ℚ) ∧ (0 : ℚ) ≤ 1) ∧ (0 ≤ (1/2 : ℚ) ∧ (1/2 : ℚ) ≤ 1) := by
  have h1 : X_train_usamp_sc [(0, nfRec 0), (1, nfRec 2)] [0, 1] = [[0]] := by
    norm_num [X_train_usamp_sc, X_train_usamp, trainTestSplit, shuffleBy,
      nTest, resampFeatures, nfRec, mmTransform, mmTransformRow, colMin,
      colMax, colVals, mmDenom, List.range_succ, List.getD]
  have h2 : X_scale dfFraud2 = [[0], [1/2], [1]] := by
    norm_num [X_scale, mmFitTransform, mmTransform, mmTransformRow,
      featureMatrix, dfFraud2, nfRec, frRec, colMin, colMax, colVals,
      mmDenom, List.range_succ]
  exact ⟨c2_amended_scaling.1 [(0, nfRec 0), (1, nfRec 2)] [0, 1] [0]
      (by rw [h1]; exact List.mem_singleton.mpr rfl) 0
      (List.mem_singleton.mpr rfl),
    c2_amended_scaling.2.2.2.1 dfFraud2 [1/2] (by rw [h2]; simp) (1/2)
      (List.mem_singleton.mpr rfl)⟩

/-- C7: each of the notebook's sampling operations — the 1000-row pandas
sample of the non-fraud rows, the 2000-row fit draw and the 4000-row
latent draw from the scaled non-fraud rows — succeeds if and only if the
requested size is at most the number of available non-fraud rows, and
fails (raises) otherwise. -/
theorem c7_sampling_error_iff :
    (∀ df sel, (nfraudSample df sel).isSome = true ↔
      1000 ≤ (nonFraudRows df).length) ∧
    (∀ df ch, (fit_samp df ch).isSome = true ↔
      n_fit_samp ≤ (x_sc_norm df).length) ∧
    (∀ df ch2 d tq w b, (norm_hid_rep df ch2 d tq w b).isSome = true ↔
      n_fit_samp * 2 ≤ (x_sc_norm df).length) := by
  refine ⟨?_, ?_, ?_⟩
  · intro df sel
    rw [nfraudSample, pandasSample]
    split <;> simp_all
  · intro df ch
    rw [fit_samp, npChoice]
    split <;> simp_all
  · intro df ch2 d tq w b
    rw [norm_hid_rep, npChoice]
    split <;> simp_all

/-- Membership for the pandas non-fraud sample: a drawn row is one of the
non-fraud rows. -/
theorem sample_mem_nonFraud {df : List Record} {sel : List ℕ} {i : ℕ}
    (hi : i ∈ sel) (hb : ∀ j ∈ sel, j < (nonFraudRows df).length) :
    (nonFraudRows df).getD i default ∈ nonFraudRows df :=
  getD_mem (hb i hi)

/-- Original positions in the non-fraud sample and in the fraud rows never
coincide: a shared position would make one row's label both 0 and 1. -/
theorem sample_fraud_fst_disjoint {df : List Record} {p q : ℕ × Record}
    (hp : p ∈ nonFraudRows df) (hq : q ∈ fraudRows df) : p.1 ≠ q.1 := by
  intro h
  rw [nonFraudRows] at hp
  rw [fraudRows] at hq
  rcases List.mem_filter.mp hp with ⟨hpe, hp0⟩
  rcases List.mem_filter.mp hq with ⟨hqe, hq1⟩
  have := enum_fst_inj hpe hqe h
  rw [this] at hp0
  have h0 : q.2.label = 0 := by simpa using hp0
  have h1 : q.2.label = 1 := by simpa using hq1
  omega

/-- C3: for a valid draw and shuffle, the resampled table is a shuffle of
(a without-replacement sample of exactly 1000 distinct non-fraud rows) ++
(all fraud rows); its row count is the fraud count plus 1000; and after
`train_test_split`, no original row lands in both the training and the
test split. -/
theorem c3_resampler_shape_and_split (df : List Record)
    (sel perm sperm : List ℕ) (rows : List (ℕ × Record))
    (hsel : IsDraw sel 1000 (nonFraudRows df).length)
    (hperm : IsPermOf perm (1000 + (fraudRows df).length))
    (hres : df_resamp df sel perm = some rows)
    (hsperm : IsPermOf sperm rows.length) :
    rows.length = (fraudRows df).length + 1000 ∧
    (∃ samp, samp.length = 1000 ∧ (samp.map Prod.fst).Nodup ∧
      (∀ p ∈ samp, p ∈ nonFraudRows df) ∧
      rows.Perm (samp ++ fraudRows df)) ∧
    (∀ p ∈ X_train_usamp rows sperm, ∀ q ∈ X_test_usamp rows sperm,
      p.1 ≠ q.1) := by
  rw [df_resamp, nfraudSample, pandasSample] at hres
  by_cases hc : 1000 ≤ (nonFraudRows df).length
  swap
  · rw [if_neg hc] at hres
    cases hres
  rw [if_pos hc] at hres
  simp only [Option.map_some', Option.some.injEq] at hres
  set nf := sel.map fun i => (nonFraudRows df).getD i default with hnf
  have hnflen : nf.length = 1000 := by
    rw [hnf, List.length_map, hsel.1]
  have happlen : (nf ++ fraudRows df).length =
      1000 + (fraudRows df).length := by
    rw [List.length_append, hnflen]
  have hperm' : IsPermOf perm (nf ++ fraudRows df).length := by
    rw [happlen]
    exact hperm
  have hrowsPerm : rows.Perm (nf ++ fraudRows df) := by
    rw [← hres]
    exact shuffleBy_perm hperm'
  have hrowslen : rows.length = (fraudRows df).length + 1000 := by
    rw [hrowsPerm.length_eq, happlen]
    omega
  have hnonfraud_nodup : ((nonFraudRows df).map Prod.fst).Nodup := by
    rw [nonFraudRows]
    exact nodup_map_fst_filter_enum df _
  have hfraud_nodup : ((fraudRows df).map Prod.fst).Nodup := by
    rw [fraudRows]
    exact nodup_map_fst_filter_enum df _
  have hnf_nodup : (nf.map Prod.fst).Nodup :=
    nodup_map_fst_sample hnonfraud_nodup hsel.2.1 hsel.2.2
  have hnf_mem : ∀ p ∈ nf, p ∈ nonFraudRows df := by
    intro p hp
    rcases List.mem_map.mp hp with ⟨i, hi, rfl⟩
    exact sample_mem_nonFraud hi hsel.2.2
  have hdisj : (nf.map Prod.fst).Disjoint ((fraudRows df).map Prod.fst) := by
    intro a ha hfa
    rcases List.mem_map.mp ha with ⟨p, hp, rfl⟩
    rcases List.mem_map.mp hfa with ⟨q, hq, he⟩
    exact sample_fraud_fst_disjoint (hnf_mem p hp) hq he.symm
  have happ_nodup : ((nf ++ fraudRows df).map Prod.fst).Nodup := by
    rw [List.map_append, List.nodup_append]
    exact ⟨hnf_nodup, hfraud_nodup, hdisj⟩
  have hrows_nodup : (rows.map Prod.fst).Nodup :=
    ((hrowsPerm.map Prod.fst).nodup_iff).mpr happ_nodup
  refine ⟨hrowslen, ⟨nf, hnflen, hnf_nodup, hnf_mem, hrowsPerm⟩, ?_⟩
  have hfeat_fst : (resampFeatures rows).map Prod.fst = rows.map Prod.fst := by
    simp [resampFeatures, List.map_map]
  have hfeatlen : (resampFeatures rows).length = rows.length := by
    simp [resampFeatures]
  have hshufPerm : (shuffleBy sperm (resampFeatures rows)).Perm
      (resampFeatures rows) := by
    apply shuffleBy_perm
    rw [hfeatlen]
    exact hsperm
  have hshuf_nodup : ((shuffleBy sperm (resampFeatures rows)).map
      Prod.fst).Nodup := by
    refine ((hshufPerm.map Prod.fst).nodup_iff).mpr ?_
    rw [hfeat_fst]
    exact hrows_nodup
  intro p hp q hq he
  rw [X_train_usamp, trainTestSplit] at hp
  rw [X_test_usamp, trainTestSplit] at hq
  simp only at hp hq
  have hp1 : p.1 ∈ ((shuffleBy sperm (resampFeatures rows)).map
      Prod.fst).drop (nTest (resampFeatures rows).length) := by
    rw [← List.map_drop]
    exact List.mem_map_of_mem Prod.fst hp
  have hq1 : q.1 ∈ ((shuffleBy sperm (resampFeatures rows)).map
      Prod.fst).take (nTest (resampFeatures rows).length) := by
    rw [← List.map_take]
    exact List.mem_map_of_mem Prod.fst hq
  exact List.disjoint_take_drop hshuf_nodup (le_refl _) hq1 (he ▸ hp1)

/-- The encoder's output width is 50 for every input and all weights: the
last layer of `autoencoder.layers[:3]` is the 50-unit dense layer. -/
theorem hiddenRepPredict_length (d : ℕ) (tq : ℚ → ℚ) (w : ℕ → ℕ → ℕ → ℚ)
    (b : ℕ → ℕ → ℚ) (x : List ℚ) :
    (hiddenRepPredict d tq w b x).length = 50 := by
  simp [hiddenRepPredict, hidden_rep, autoencoderModelLayers,
    autoencoderDenses, layersApply, denseApply]

theorem dfWide_norm_len : (x_sc_norm dfWide).length = 4000 := by
  rw [x_sc_norm_length, dfWide, List.filter_append, List.filter_replicate]
  norm_num [List.filter_cons]

/-- C4: the latent representation of every record of both classes is the
encoder half's output on its scaled feature vector — the encoder being the
input layer plus the first two dense layers — each produced by one
encoder application; every latent vector has width 50, which is strictly
less than the feature width `d` of the table's records (the notebook's
narration puts `d` at 404, so `50 < d`). -/
theorem c4_encoder_and_latent_width (df : List Record) (ch2 : List ℕ)
    (d : ℕ) (tq : ℚ → ℚ) (w : ℕ → ℕ → ℕ → ℚ) (b : ℕ → ℕ → ℚ)
    (xl : List (List ℚ))
    (hd : ∀ r ∈ df, r.features.length = d) (h50 : 50 < d)
    (hch2 : IsDraw ch2 (n_fit_samp * 2) (x_sc_norm df).length)
    (hxl : X_latent df ch2 d tq w b = some xl) :
    denseSpecsOf (hidden_rep d) = (autoencoderDenses d).take 2 ∧
    (∀ v ∈ xl, ∃ x, (x ∈ x_sc_norm df ∨ x ∈ x_sc_fraud df) ∧
      v = hiddenRepPredict d tq w b x) ∧
    (∀ v ∈ xl, v.length = 50) ∧
    (∀ v ∈ xl, ∀ r ∈ df, v.length < r.features.length) := by
  have hmem : ∀ v ∈ xl, ∃ x, (x ∈ x_sc_norm df ∨ x ∈ x_sc_fraud df) ∧
      v = hiddenRepPredict d tq w b x := by
    rw [X_latent] at hxl
    rcases Option.map_eq_some'.mp hxl with ⟨nh, hnh, rfl⟩
    rw [norm_hid_rep, npChoice] at hnh
    by_cases hc : n_fit_samp * 2 ≤ (x_sc_norm df).length
    swap
    · rw [if_neg hc] at hnh
      cases hnh
    rw [if_pos hc] at hnh
    simp only [Option.map_some', Option.some.injEq] at hnh
    intro v hv
    rcases List.mem_append.mp hv with h | h
    · rw [← hnh] at h
      rcases List.mem_map.mp h with ⟨i, hi, rfl⟩
      exact ⟨(x_sc_norm df).getD i [], Or.inl (getD_mem (hch2.2.2 i hi)), rfl⟩
    · rcases List.mem_map.mp h with ⟨x, hx, rfl⟩
      exact ⟨x, Or.inr hx, rfl⟩
  have hwidth : ∀ v ∈ xl, v.length = 50 := by
    intro v hv
    rcases hmem v hv with ⟨x, _, rfl⟩
    exact hiddenRepPredict_length d tq w b x
  refine ⟨rfl, hmem, hwidth, ?_⟩
  intro v hv r hr
  rw [hwidth v hv, hd r hr]
  exact h50

/-- Instance of C4 on the concrete 404-feature table: the latent matrix
exists and every latent vector has width 50. -/
theorem c4_witness :
    ∃ xl, X_latent dfWide (List.range 4000) 404 (fun q => q)
        (fun _ _ _ => 0) (fun _ _ => 0) = some xl ∧
      ∀ v ∈ xl, v.length = 50 := by
  have hlen : (x_sc_norm dfWide).length = 4000 := dfWide_norm_len
  have hd : ∀ r ∈ dfWide, r.features.length = 404 := by
    intro r hr
    rw [dfWide] at hr
    rcases List.mem_append.mp hr with h | h
    · rw [List.eq_of_mem_replicate h]
      show (List.replicate 404 (0 : ℚ)).length = 404
      exact List.length_replicate _ _
    · rw [List.mem_singleton.mp h]
      show (List.replicate 404 (1 : ℚ)).length = 404
      exact List.length_replicate _ _
  have hch2 : IsDraw (List.range 4000) (n_fit_samp * 2)
      (x_sc_norm dfWide).length := by
    refine ⟨by simp [n_fit_samp], List.nodup_range _, ?_⟩
    intro i hi
    rw [hlen]
    have := List.mem_range.mp hi
    omega
  have hxl : X_latent dfWide (List.range 4000) 404 (fun q => q)
      (fun _ _ _ => 0) (fun _ _ => 0) =
      some (((List.range 4000).map fun i =>
          hiddenRepPredict 404 (fun q => q) (fun _ _ _ => 0) (fun _ _ => 0)
            ((x_sc_norm dfWide).getD i [])) ++
        fraud_hid_rep dfWide 404 (fun q => q) (fun _ _ _ => 0)
          (fun _ _ => 0)) := by
    rw [X_latent, norm_hid_rep, npChoice,
      if_pos (by rw [hlen]; norm_num [n_fit_samp])]
    rfl
  exact ⟨_, hxl, (c4_encoder_and_latent_width dfWide (List.range 4000) 404
    (fun q => q) (fun _ _ _ => 0) (fun _ _ => 0) _ hd (by norm_num) hch2
    hxl).2.2.1⟩

/-- Instance of C3 on the concrete 4001-row table with the identity
draws: the resampled table exists and has 1 + 1000 rows. -/
theorem c3_witness :
    ∃ rows, df_resamp dfBig (List.range 1000) (List.range 1001) =
        some rows ∧
      rows.length = (fraudRows dfBig).length + 1000 := by
  have hnfl : (nonFraudRows dfBig).length = 4000 := dfBig_nonFraudRows_len
  have hfr : (fraudRows dfBig).length = 1 := dfBig_fraudRows_len
  have hsel : IsDraw (List.range 1000) 1000 (nonFraudRows dfBig).length := by
    refine ⟨by simp, List.nodup_range _, ?_⟩
    intro i hi
    rw [hnfl]
    have := List.mem_range.mp hi
    omega
  have hperm : IsPermOf (List.range 1001)
      (1000 + (fraudRows dfBig).length) := by
    rw [IsPermOf, hfr]
  have hres : df_resamp dfBig (List.range 1000) (List.range 1001) =
      some (shuffleBy (List.range 1001)
        (((List.range 1000).map fun i =>
          (nonFraudRows dfBig).getD i default) ++ fraudRows dfBig)) := by
    rw [df_resamp, nfraudSample, pandasSample, if_pos (by rw [hnfl]; norm_num)]
    rfl
  have hlen : (shuffleBy (List.range 1001)
      (((List.range 1000).map fun i =>
        (nonFraudRows dfBig).getD i default) ++ fraudRows dfBig)).length =
      1001 := by
    rw [length_shuffleBy, List.length_range]
  have hsperm : IsPermOf (List.range 1001) (shuffleBy (List.range 1001)
      (((List.range 1000).map fun i =>
        (nonFraudRows dfBig).getD i default) ++ fraudRows dfBig)).length := by
    rw [IsPermOf, hlen]
  exact ⟨_, hres, (c3_resampler_shape_and_split dfBig (List.range 1000)
    (List.range 1001) (List.range 1001) _ hsel hperm hres hsperm).1⟩

/-- C5: the latent-space classifier uses an L1 penalty, its fit input is
the train part of a train/test split of the 2-component t-SNE projection
of the latent matrix — every fit point is a point of the 2D embedding,
not a 50-wide latent vector — and it reports exactly the same four metric
lines as the baseline classifier. -/
theorem c5_latent_space_classifier :
    latentLogRegPenalty = .l1 ∧
    tsneComponents = 2 ∧
    latentMetrics = baselineMetrics ∧
    (∀ t df ch2 perm d tq w b xl xs,
      X_latent df ch2 d tq w b = some xl →
      X_t t df ch2 d tq w b = some xs →
      xs = t xl ∧
      latentXTrain t df ch2 perm d tq w b =
        some (trainTestSplit xs perm).1 ∧
      (IsPermOf perm xs.length →
        ∀ p ∈ (trainTestSplit xs perm).1, p ∈ xs)) := by
  refine ⟨rfl, rfl, rfl, ?_⟩
  intro t df ch2 perm d tq w b xl xs hxl hxs
  rw [X_t, hxl] at hxs
  simp only [Option.map_some', Option.some.injEq] at hxs
  refine ⟨hxs.symm, ?_, ?_⟩
  · rw [latentXTrain, X_t, hxl]
    simp [hxs]
  · intro hperm p hp
    rw [trainTestSplit] at hp
    simp only at hp
    have hp' : p ∈ shuffleBy perm xs := List.mem_of_mem_drop hp
    exact (shuffleBy_perm hperm).mem_iff.mp hp'

/-- Instance of C5's data-flow clause on the concrete 4001-row table with
a constant embedding map: the split input of the latent classifier is the
t-SNE image of the latent matrix. -/
theorem c5_witness :
    ∃ xl xs, X_latent dfBig (List.range 4000) 1 (fun q => q)
        (fun _ _ _ => 0) (fun _ _ => 0) = some xl ∧
      X_t (fun l => l.map fun _ => ((0 : ℚ), (0 : ℚ))) dfBig
        (List.range 4000) 1 (fun q => q) (fun _ _ _ => 0)
        (fun _ _ => 0) = some xs ∧
      xs = xl.map fun _ => ((0 : ℚ), (0 : ℚ)) := by
  have hlen : (x_sc_norm dfBig).length = 4000 := dfBig_norm_len
  have hxl : X_latent dfBig (List.range 4000) 1 (fun q => q)
      (fun _ _ _ => 0) (fun _ _ => 0) =
      some (((List.range 4000).map fun i =>
          hiddenRepPredict 1 (fun q => q) (fun _ _ _ => 0) (fun _ _ => 0)
            ((x_sc_norm dfBig).getD i [])) ++
        fraud_hid_rep dfBig 1 (fun q => q) (fun _ _ _ => 0)
          (fun _ _ => 0)) := by
    rw [X_latent, norm_hid_rep, npChoice,
      if_pos (by rw [hlen]; norm_num [n_fit_samp])]
    rfl
  have hxs : X_t (fun l => l.map fun _ => ((0 : ℚ), (0 : ℚ))) dfBig
      (List.range 4000) 1 (fun q => q) (fun _ _ _ => 0) (fun _ _ => 0) =
      some ((((List.range 4000).map fun i =>
          hiddenRepPredict 1 (fun q => q) (fun _ _ _ => 0) (fun _ _ => 0)
            ((x_sc_norm dfBig).getD i [])) ++
        fraud_hid_rep dfBig 1 (fun q => q) (fun _ _ _ => 0)
          (fun _ _ => 0)).map fun _ => ((0 : ℚ), (0 : ℚ))) := by
    rw [X_t, hxl]
    rfl
  exact ⟨_, _, hxl, hxs,
    (c5_latent_space_classifier.2.2.2 _ dfBig (List.range 4000) []
      1 (fun q => q) (fun _ _ _ => 0) (fun _ _ => 0) _ _ hxl hxs).1⟩

theorem getD_replicate {α : Type} (n : ℕ) (a d : α) {i : ℕ} (h : i < n) :
    (List.replicate n a).getD i d = a := by
  rw [List.getD_eq_getElem _ d (by simpa using h)]
  exact List.getElem_replicate _ _

theorem getD_map_of_lt {α β : Type} [Inhabited α] [Inhabited β] (f : α → β)
    (l : List α) {i : ℕ} (h : i < l.length) :
    (l.map f).getD i default = f (l.getD i default) := by
  rw [List.getD_eq_getElem _ _ (by simpa using h), List.getElem_map,
    List.getD_eq_getElem _ _ h]

/-- Position `i` of the train part of a split comes from position
`perm[nTest + i]` of the unshuffled array: splitting two arrays with the
same permutation keeps them aligned. -/
theorem trainTestSplit_train_getD {α : Type} [Inhabited α] (xs : List α)
    (perm : List ℕ) (i : ℕ) (h : nTest xs.length + i < perm.length) :
    (trainTestSplit xs perm).1.getD i default =
      xs.getD (perm.getD (nTest xs.length + i) 0) default := by
  rw [trainTestSplit]
  simp only
  rw [shuffleBy, ← List.map_drop]
  have h1 : i < (perm.drop (nTest xs.length)).length := by
    simp only [List.length_drop]
    omega
  rw [getD_map_of_lt _ _ h1]
  congr 1
  rw [List.getD_eq_getElem _ _ h1, List.getElem_drop,
    List.getD_eq_getElem _ _ h]

/-- C10: the latent classification dataset stacks the encodings of
`2 * n_fit_samp = 4000` freshly drawn non-fraud rows above the encodings
of all fraud rows; `y_latent` has the same length as `X_latent`, with
label 0 at every non-fraud position and 1 at every fraud position; the
fresh draw may overlap the autoencoder's fit draw; and the paired arrays
stay length- and position-aligned through the embedding and the split. -/
theorem c10_latent_dataset_alignment (df : List Record) (ch2 : List ℕ)
    (d : ℕ) (tq : ℚ → ℚ) (w : ℕ → ℕ → ℕ → ℚ) (b : ℕ → ℕ → ℚ)
    (xl : List (List ℚ)) (yl : List ℕ)
    (t : List (List ℚ) → List (ℚ × ℚ)) (perm : List ℕ)
    (hch2 : IsDraw ch2 (n_fit_samp * 2) (x_sc_norm df).length)
    (hxl : X_latent df ch2 d tq w b = some xl)
    (hyl : y_latent df ch2 d tq w b = some yl)
    (ht : (t xl).length = xl.length) :
    yl.length = xl.length ∧
    xl.length = n_fit_samp * 2 + (x_sc_fraud df).length ∧
    (∀ i < n_fit_samp * 2, yl.getD i 2 = 0) ∧
    (∀ i, n_fit_samp * 2 ≤ i → i < yl.length → yl.getD i 2 = 1) ∧
    ((trainTestSplit (t xl) perm).1.length =
        (trainTestSplit yl perm).1.length ∧
      (trainTestSplit (t xl) perm).2.length =
        (trainTestSplit yl perm).2.length) ∧
    (∀ i, nTest yl.length + i < perm.length →
      (trainTestSplit (t xl) perm).1.getD i default =
        (t xl).getD (perm.getD (nTest yl.length + i) 0) default ∧
      (trainTestSplit yl perm).1.getD i default =
        yl.getD (perm.getD (nTest yl.length + i) 0) default) ∧
    (∃ dfo ch1 ch2o, IsDraw ch1 n_fit_samp (x_sc_norm dfo).length ∧
      IsDraw ch2o (n_fit_samp * 2) (x_sc_norm dfo).length ∧
      ∃ i, i ∈ ch1 ∧ i ∈ ch2o) := by
  rw [X_latent] at hxl
  rw [y_latent] at hyl
  rcases hno : norm_hid_rep df ch2 d tq w b with _ | nh
  · rw [hno] at hxl
    cases hxl
  rw [hno] at hxl hyl
  simp only [Option.map_some', Option.some.injEq] at hxl hyl
  have hx : nh ++ fraud_hid_rep df d tq w b = xl := hxl
  have hy : List.replicate nh.length 0 ++
      List.replicate (fraud_hid_rep df d tq w b).length 1 = yl := hyl
  have hnhlen : nh.length = n_fit_samp * 2 := by
    rw [norm_hid_rep, npChoice] at hno
    by_cases hc : n_fit_samp * 2 ≤ (x_sc_norm df).length
    swap
    · rw [if_neg hc] at hno
      cases hno
    rw [if_pos hc] at hno
    simp only [Option.map_some', Option.some.injEq] at hno
    rw [← hno, List.length_map, hch2.1]
  have hfrlen : (fraud_hid_rep df d tq w b).length = (x_sc_fraud df).length := by
    rw [fraud_hid_rep, List.length_map]
  have hyllen : yl.length = xl.length := by
    rw [← hx, ← hy]
    simp
  have hxllen : xl.length = n_fit_samp * 2 + (x_sc_fraud df).length := by
    rw [← hx, List.length_append, hnhlen, hfrlen]
  have hylval : yl = List.replicate nh.length 0 ++
      List.replicate (fraud_hid_rep df d tq w b).length 1 := hy.symm
  refine ⟨hyllen, hxllen, ?_, ?_, ?_, ?_, ?_⟩
  · intro i hi
    rw [hylval, List.getD_append _ _ _ _ (by rw [List.length_replicate, hnhlen]; omega)]
    exact getD_replicate _ _ _ (by omega)
  · intro i hlo hhi
    have hyl' : yl.length = n_fit_samp * 2 + (x_sc_fraud df).length := by
      rw [hyllen, hxllen]
    rw [hylval, List.getD_append_right _ _ _ _
      (by rw [List.length_replicate, hnhlen]; omega)]
    rw [List.length_replicate, hnhlen]
    exact getD_replicate _ _ _ (by
      rw [hfrlen]
      rw [hylval] at hhi
      simp only [List.length_append, List.length_replicate] at hhi
      rw [hnhlen, hfrlen] at hhi
      omega)
  · constructor
    · rw [trainTestSplit, trainTestSplit]
      simp only [List.length_drop, length_shuffleBy, ht, hyllen]
    · rw [trainTestSplit, trainTestSplit]
      simp only [List.length_take, length_shuffleBy, ht, hyllen]
  · intro i hi
    have hteq : nTest (t xl).length = nTest yl.length := by
      rw [ht, hyllen]
    constructor
    · rw [trainTestSplit_train_getD (t xl) perm i (by rw [hteq]; omega), hteq]
    · exact trainTestSplit_train_getD yl perm i hi
  · refine ⟨dfBig, List.range 2000, List.range 4000, ?_, ?_, 0, ?_, ?_⟩
    · refine ⟨by simp [n_fit_samp], List.nodup_range _, ?_⟩
      intro i hi
      rw [dfBig_norm_len]
      have := List.mem_range.mp hi
      omega
    · refine ⟨by simp [n_fit_samp], List.nodup_range _, ?_⟩
      intro i hi
      rw [dfBig_norm_len]
      have := List.mem_range.mp hi
      omega
    · simp
    · simp

/-- Instance of C10 on the concrete 4001-row table: `X_latent` and
`y_latent` exist and have equal lengths. -/
theorem c10_witness :
    ∃ xl yl, X_latent dfBig (List.range 4000) 1 (fun q => q)
        (fun _ _ _ => 0) (fun _ _ => 0) = some xl ∧
      y_latent dfBig (List.range 4000) 1 (fun q => q) (fun _ _ _ => 0)
        (fun _ _ => 0) = some yl ∧
      yl.length = xl.length := by
  have hlen : (x_sc_norm dfBig).length = 4000 := dfBig_norm_len
  have hch2 : IsDraw (List.range 4000) (n_fit_samp * 2)
      (x_sc_norm dfBig).length := by
    refine ⟨by simp [n_fit_samp], List.nodup_range _, ?_⟩
    intro i hi
    rw [hlen]
    have := List.mem_range.mp hi
    omega
  have hxl : X_latent dfBig (List.range 4000) 1 (fun q => q)
      (fun _ _ _ => 0) (fun _ _ => 0) =
      some (((List.range 4000).map fun i =>
          hiddenRepPredict 1 (fun q => q) (fun _ _ _ => 0) (fun _ _ => 0)
            ((x_sc_norm dfBig).getD i [])) ++
        fraud_hid_rep dfBig 1 (fun q => q) (fun _ _ _ => 0)
          (fun _ _ => 0)) := by
    rw [X_latent, norm_hid_rep, npChoice,
      if_pos (by rw [hlen]; norm_num [n_fit_samp])]
    rfl
  have hyl : y_latent dfBig (List.range 4000) 1 (fun q => q)
      (fun _ _ _ => 0) (fun _ _ => 0) =
      some (List.replicate ((List.range 4000).map fun i =>
          hiddenRepPredict 1 (fun q => q) (fun _ _ _ => 0) (fun _ _ => 0)
            ((x_sc_norm dfBig).getD i [])).length 0 ++
        List.replicate (fraud_hid_rep dfBig 1 (fun q => q) (fun _ _ _ => 0)
          (fun _ _ => 0)).length 1) := by
    rw [y_latent, norm_hid_rep, npChoice,
      if_pos (by rw [hlen]; norm_num [n_fit_samp])]
    rfl
  exact ⟨_, _, hxl, hyl, (c10_latent_dataset_alignment dfBig
    (List.range 4000) 1 (fun q => q) (fun _ _ _ => 0) (fun _ _ => 0) _ _
    (fun l => l.map fun _ => ((0 : ℚ), (0 : ℚ))) [] hch2 hxl hyl
    (by rw [List.length_map])).1⟩

/-- Per-positive AUC contribution is at most the number of negatives:
the strictly-below negatives and the tied negatives are disjoint. -/
theorem count_lt_add_half_count_eq_le (s : ℚ) (l : List ℚ) :
    ((l.filter fun u => decide (u < s)).length : ℚ) +
      ((l.filter fun u => u == s).length : ℚ) / 2 ≤ (l.length : ℚ) := by
  induction l with
  | nil => simp
  | cons x l ih =>
    simp only [List.filter_cons, List.length_cons]
    rcases lt_trichotomy x s with h | h | h
    · rw [if_pos (decide_eq_true h), if_neg (by simp [ne_of_lt h])]
      simp only [List.length_cons]
      push_cast
      linarith
    · rw [if_neg (by simp [h]), if_pos (by simp [h])]
      simp only [List.length_cons]
      push_cast
      linarith
    · rw [if_neg (by simp [not_lt_of_lt h]), if_neg (by simp [ne_of_gt h])]
      push_cast
      linarith

/-- Any value `roc_auc_score` returns lies in `[0,1]`. -/
theorem roc_auc_mem_unitInterval {pairs : List (ℕ × ℚ)} {v : ℚ}
    (h : roc_auc_score pairs = some v) : 0 ≤ v ∧ v ≤ 1 := by
  simp only [roc_auc_score] at h
  set pos := (pairs.filter fun p => p.1 == 1).map Prod.snd with hpos
  set neg := (pairs.filter fun p => !(p.1 == 1)).map Prod.snd with hneg
  by_cases hc : pos.length = 0 ∨ neg.length = 0
  · rw [if_pos hc] at h
    cases h
  · rw [if_neg hc] at h
    push_neg at hc
    have hP : (1 : ℚ) ≤ (pos.length : ℚ) := by
      have := Nat.one_le_iff_ne_zero.mpr hc.1
      exact_mod_cast this
    have hN : (1 : ℚ) ≤ (neg.length : ℚ) := by
      have := Nat.one_le_iff_ne_zero.mpr hc.2
      exact_mod_cast this
    have hv : v = (pos.map fun s =>
        ((neg.filter fun u => decide (u < s)).length : ℚ) +
          ((neg.filter fun u => u == s).length : ℚ) / 2).sum /
        ((pos.length : ℚ) * (neg.length : ℚ)) := (Option.some.injEq _ _).mp h.symm
    have hterm_nonneg : ∀ x ∈ pos.map fun s =>
        ((neg.filter fun u => decide (u < s)).length : ℚ) +
          ((neg.filter fun u => u == s).length : ℚ) / 2, 0 ≤ x := by
      intro x hx
      rcases List.mem_map.mp hx with ⟨s, _, rfl⟩
      positivity
    have hsum_nonneg : 0 ≤ (pos.map fun s =>
        ((neg.filter fun u => decide (u < s)).length : ℚ) +
          ((neg.filter fun u => u == s).length : ℚ) / 2).sum :=
      List.sum_nonneg hterm_nonneg
    have hterm_le : ∀ x ∈ pos.map fun s =>
        ((neg.filter fun u => decide (u < s)).length : ℚ) +
          ((neg.filter fun u => u == s).length : ℚ) / 2,
        x ≤ (neg.length : ℚ) := by
      intro x hx
      rcases List.mem_map.mp hx with ⟨s, _, rfl⟩
      exact count_lt_add_half_count_eq_le s neg
    have hsum_le : (pos.map fun s =>
        ((neg.filter fun u => decide (u < s)).length : ℚ) +
          ((neg.filter fun u => u == s).length : ℚ) / 2).sum ≤
        ((pos.length : ℚ) * (neg.length : ℚ)) := by
      have := List.sum_le_card_nsmul _ _ hterm_le
      rw [List.length_map] at this
      simpa [nsmul_eq_mul] using this
    have hden : 0 < (pos.length : ℚ) * (neg.length : ℚ) := by positivity
    constructor
    · rw [hv]
      exact div_nonneg hsum_nonneg (le_of_lt hden)
    · rw [hv, div_le_one hden]
      exact hsum_le

theorem recall_score_mem_unitInterval (pairs : List (ℕ × ℕ)) :
    0 ≤ recall_score pairs ∧ recall_score pairs ≤ 1 := by
  simp only [recall_score]
  set tp := (pairs.filter fun p => p.1 == 1 && p.2 == 1).length
  set fn := (pairs.filter fun p => p.1 == 1 && !(p.2 == 1)).length
  by_cases h : tp + fn = 0
  · rw [if_pos h]
    norm_num
  · rw [if_neg h]
    have hpos : (0 : ℚ) < (tp : ℚ) + (fn : ℚ) := by
      have : 0 < tp + fn := Nat.pos_of_ne_zero h
      exact_mod_cast this
    constructor
    · positivity
    · rw [div_le_one hpos]
      have hfn : (0 : ℚ) ≤ (fn : ℚ) := by positivity
      linarith

/-- Discarding the rows whose true label is not 1 does not change recall:
it is a statistic of the positive class only. -/
theorem recall_score_restrict (pairs : List (ℕ × ℕ)) :
    recall_score (pairs.filter fun p => p.1 == 1) = recall_score pairs := by
  simp only [recall_score, List.filter_filter]
  have h1 : (pairs.filter fun p => (p.1 == 1 && p.2 == 1) && (p.1 == 1)) =
      pairs.filter fun p => p.1 == 1 && p.2 == 1 :=
    List.filter_congr fun p _ => by
      cases hp : p.1 == 1 <;> cases hq : p.2 == 1 <;> simp [hp, hq]
  have h2 : (pairs.filter fun p => (p.1 == 1 && !(p.2 == 1)) && (p.1 == 1)) =
      pairs.filter fun p => p.1 == 1 && !(p.2 == 1) :=
    List.filter_congr fun p _ => by
      cases hp : p.1 == 1 <;> cases hq : p.2 == 1 <;> simp [hp, hq]
  rw [h1, h2]

/-- The positive rows split into predicted-positive and
predicted-negative. -/
theorem length_filter_pos_split (pairs : List (ℕ × ℕ)) :
    (pairs.filter fun p => p.1 == 1).length =
      (pairs.filter fun p => p.1 == 1 && p.2 == 1).length +
        (pairs.filter fun p => p.1 == 1 && !(p.2 == 1)).length := by
  induction pairs with
  | nil => simp
  | cons p l ih =>
    simp only [List.filter_cons]
    cases hp : p.1 == 1 <;> cases hq : p.2 == 1 <;>
      simp [hp, hq, ih] <;> omega

theorem digitChar_isDigit : ∀ n < 10, (Nat.digitChar n).isDigit = true := by
  decide

/-- The fractional part of `fmt4` is exactly four digit characters. -/
theorem fmt4_shape (q : ℚ) :
    ∃ ip fr, fmt4 q = ip ++ "." ++ fr ∧ fr.length = 4 ∧
      ∀ c ∈ fr.data, c.isDigit = true := by
  refine ⟨toString ((round (q * 10000)).toNat / 10000),
    String.mk [Nat.digitChar ((round (q * 10000)).toNat / 1000 % 10),
      Nat.digitChar ((round (q * 10000)).toNat / 100 % 10),
      Nat.digitChar ((round (q * 10000)).toNat / 10 % 10),
      Nat.digitChar ((round (q * 10000)).toNat % 10)], rfl, rfl, ?_⟩
  intro c hc
  have hm : ∀ k : ℕ, k % 10 < 10 := fun k => Nat.mod_lt _ (by norm_num)
  simp only [List.mem_cons, List.not_mem_nil, or_false] at hc
  rcases hc with rfl | rfl | rfl | rfl <;> exact digitChar_isDigit _ (hm _)

/-- C8: every recall value and every returned ROC-AUC value lies in
`[0,1]`; recall is a statistic of the positive (label 1) rows only — the
fraction of true fraud rows predicted as fraud; and each metric prints as
`label`, colon-space, a value with exactly four decimal places. -/
theorem c8_metric_bounds_and_format :
    (∀ pairs : List (ℕ × ℕ),
      0 ≤ recall_score pairs ∧ recall_score pairs ≤ 1) ∧
    (∀ (pairs : List (ℕ × ℚ)) (v : ℚ), roc_auc_score pairs = some v →
      0 ≤ v ∧ v ≤ 1) ∧
    (∀ pairs : List (ℕ × ℕ),
      recall_score (pairs.filter fun p => p.1 == 1) = recall_score pairs) ∧
    (∀ pairs : List (ℕ × ℕ),
      0 < (pairs.filter fun p => p.1 == 1).length →
      recall_score pairs =
        ((pairs.filter fun p => p.1 == 1 && p.2 == 1).length : ℚ) /
          ((pairs.filter fun p => p.1 == 1).length : ℚ)) ∧
    (∀ label v, metricLine label v = label ++ ": " ++ fmt4 v) ∧
    (∀ v : ℚ, ∃ ip fr, fmt4 v = ip ++ "." ++ fr ∧ fr.length = 4 ∧
      ∀ c ∈ fr.data, c.isDigit = true) := by
  refine ⟨recall_score_mem_unitInterval, fun pairs v h =>
    roc_auc_mem_unitInterval h, recall_score_restrict, ?_,
    fun label v => rfl, fmt4_shape⟩
  intro pairs hpos
  simp only [recall_score]
  rw [length_filter_pos_split pairs] at hpos ⊢
  have h : (pairs.filter fun p => p.1 == 1 && p.2 == 1).length +
      (pairs.filter fun p => p.1 == 1 && !(p.2 == 1)).length ≠ 0 :=
    Nat.pos_iff_ne_zero.mp hpos
  rw [if_neg h]
  push_cast
  ring_nf

/-- Instance of C8 at a concrete prediction list: recall of
`[(1,1),(1,0)]` is `1/2 ∈ [0,1]`, the AUC of a perfectly separated score
list is in `[0,1]`, and recall equals the positive-class fraction. -/
theorem c8_witness :
    (0 ≤ recall_score [(1, 1), (1, 0)] ∧ recall_score [(1, 1), (1, 0)] ≤ 1) ∧
    (0 ≤ (1 : ℚ) ∧ (1 : ℚ) ≤ 1) ∧
    recall_score [(1, 1), (1, 0)] =
      (([(1, 1), (1, 0)].filter
          fun p : ℕ × ℕ => p.1 == 1 && p.2 == 1).length : ℚ) /
        (([(1, 1), (1, 0)].filter fun p : ℕ × ℕ => p.1 == 1).length : ℚ) := by
  have hroc : roc_auc_score [(1, (1 : ℚ)), (0, 0)] = some 1 := by
    simp only [roc_auc_score, List.filter_cons, List.filter_nil]
    norm_num
  exact ⟨c8_metric_bounds_and_format.1 [(1, 1), (1, 0)],
    c8_metric_bounds_and_format.2.1 [(1, (1 : ℚ)), (0, 0)] 1 hroc,
    c8_metric_bounds_and_format.2.2.2.1 [(1, 1), (1, 0)] (by decide)⟩

/-- C9: on labels and predictions in `{0, 1}`, the confusion encoding
`gen_pred_res(y_true, y_pred) = 10*y_true + y_pred` is injective, covers
exactly the four case keys `{0, 1, 10, 11}`, and every point matches
exactly one key of the plot's `cases` dict. -/
theorem c9_gen_pred_res_partition :
    (∀ a ∈ [0, 1], ∀ b ∈ [0, 1], ∀ a' ∈ [0, 1], ∀ b' ∈ [0, 1],
      gen_pred_res a b = gen_pred_res a' b' → a = a' ∧ b = b') ∧
    (∀ c ∈ confusionCases, ∃ a ∈ [0, 1], ∃ b ∈ [0, 1],
      gen_pred_res a b = c) ∧
    (∀ a ∈ [0, 1], ∀ b ∈ [0, 1],
      (confusionCases.filter fun c => c == gen_pred_res a b).length = 1) := by
  refine ⟨?_, ?_, ?_⟩ <;> decide

/-- Instance of C9 at `y_true = 1, y_pred = 0` (a false negative). -/
theorem c9_witness :
    (gen_pred_res 1 0 = gen_pred_res 1 0 → (1 : ℕ) = 1 ∧ (0 : ℕ) = 0) ∧
    (confusionCases.filter fun c => c == gen_pred_res 1 0).length = 1 :=
  ⟨c9_gen_pred_res_partition.1 1 (by decide) 0 (by decide) 1 (by decide) 0
    (by decide),
   c9_gen_pred_res_partition.2.2 1 (by decide) 0 (by decide)⟩

end CreditFraud
